import Mathlib

/-!
Shallow embedding of the `plasma` binary-view core: the in-memory cursor
`BorrowView` over an immutable byte container, its operations
(`read_byte`, `transcribe`, `skip`, `bound`, `bound_len`,
`hint_available_bytes`), and the `ReadError` failure model with its
`PartialEq` implementation.

Modelling conventions:
* a 64-bit platform is assumed, so `usize` and `u64` both range over
  `0 .. 2^64 - 1`; machine integers are `Nat` with explicit saturation
  (`saturatingAdd`, mirroring `usize::saturating_add`) or wraparound
  (`% USIZE_CARD`, mirroring the release-mode two's-complement semantics
  of the unchecked `self.offset + len` in `transcribe`);
* the backing byte container `T: Clone + Borrow<[u8]>` is modelled by its
  borrowed byte slice, a `List Nat`;
* `Result<T> = std::result::Result<T, ReadError>` is `Except ReadError`;
* the opaque `Box<dyn ViewReadError>` payload of `ReadError::Other` is
  modelled as an abstract `Nat` tag (its identity is all that matters to
  the `PartialEq` implementation, which ignores it).
-/

/-- Number of values of the pointer-sized integer `usize` (64-bit platform). -/
def USIZE_CARD : Nat := 2 ^ 64

/-- `usize::MAX` on a 64-bit platform. -/
def USIZE_MAX : Nat := USIZE_CARD - 1

/-- `u64::MAX`; on a 64-bit platform it coincides with `usize::MAX`. -/
def U64_MAX : Nat := USIZE_CARD - 1

/-- `usize::saturating_add`: addition capped at `usize::MAX`. -/
def saturatingAdd (a b : Nat) : Nat := min (a + b) USIZE_MAX

/-- `ReadError` from `src/binary/mod.rs`: `EndOfStream`, or `Other` wrapping
an opaque `Box<dyn ViewReadError>` payload (modelled as an abstract tag). -/
inductive ReadError where
  | EndOfStream : ReadError
  | Other (cause : Nat) : ReadError
  deriving DecidableEq, Repr

deriving instance DecidableEq for Except

/-- `pub type Result<T> = std::result::Result<T, ReadError>`. -/
abbrev Result (α : Type) : Type := Except ReadError α

/-- The `impl PartialEq for ReadError` from `src/binary/mod.rs`:
`EndOfStream` equals `EndOfStream`; everything else compares unequal. -/
def ReadError.eq : ReadError → ReadError → Bool
  | .EndOfStream, .EndOfStream => true
  | .EndOfStream, _ => false
  | _, _ => false

/-- `BorrowView<T>` from `src/binary/view.rs`: a handle on immutable bytes,
a current offset, and an optional bound offset (first byte that may not be
read). The handle is modelled by its borrowed byte slice. -/
structure BorrowView where
  handle : List Nat
  offset : Nat
  bound_offset : Option Nat
  deriving DecidableEq, Repr

/-- `BorrowView::new_offset(handle, offset)`. -/
def BorrowView.new_offset (handle : List Nat) (offset : Nat) : BorrowView :=
  { handle := handle, offset := offset, bound_offset := none }

/-- `BorrowView::new(handle)`: offset 0, no bound. -/
def BorrowView.new (handle : List Nat) : BorrowView :=
  BorrowView.new_offset handle 0

/-- Rust's `slice.get(start..stop)`: `Some` of the subslice when
`start <= stop <= slice.len()`, `None` otherwise. -/
def sliceGetRange (s : List Nat) (start stop : Nat) : Option (List Nat) :=
  if start ≤ stop ∧ stop ≤ s.length then
    some ((s.drop start).take (stop - start))
  else
    none

/-- `BorrowView::read_byte`: `self.handle.borrow().get(self.offset).copied().ok_or(EndOfStream)`. -/
def BorrowView.read_byte (v : BorrowView) : Result Nat :=
  match v.handle.get? v.offset with
  | some b => .ok b
  | none => .error .EndOfStream

/-- `BorrowView::transcribe`: `self.handle.borrow().get(self.offset..self.offset + len).ok_or(EndOfStream)`,
copied out. The unchecked usize addition `self.offset + len` wraps around
(release-mode two's-complement semantics), modelled as `% USIZE_CARD`. -/
def BorrowView.transcribe (v : BorrowView) (len : Nat) : Result (List Nat) :=
  match sliceGetRange v.handle v.offset ((v.offset + len) % USIZE_CARD) with
  | some s => .ok s
  | none => .error .EndOfStream

/-- `BorrowView::skip`: convert the `u64` count to `usize`
(`usize::try_from`, failing with `EndOfStream` when it does not fit),
saturating-add it to the offset, and fail with `EndOfStream` when a set
bound would be exceeded. The container length is never consulted. -/
def BorrowView.skip (v : BorrowView) (bytes : Nat) : Result BorrowView :=
  if USIZE_MAX < bytes then .error .EndOfStream
  else
    let new_offset := saturatingAdd v.offset bytes
    match v.bound_offset with
    | some bound =>
        if bound < new_offset then .error .EndOfStream
        else .ok { v with offset := new_offset }
    | none => .ok { v with offset := new_offset }

/-- `BorrowView::bound`: a `len` that does not fit `usize` does nothing;
otherwise the new bound offset is `offset.saturating_add(len)`, meeted
(`min`) with any existing bound. -/
def BorrowView.bound (v : BorrowView) (len : Nat) : BorrowView :=
  if USIZE_MAX < len then v
  else
    match v.bound_offset with
    | none => { v with bound_offset := some (saturatingAdd v.offset len) }
    | some cur =>
        { v with bound_offset := some (min cur (saturatingAdd v.offset len)) }

/-- `BorrowView::bound_len`: `handle.borrow().len().saturating_sub(offset)`
(`Nat` subtraction is saturating). -/
def BorrowView.bound_len (v : BorrowView) : Option Nat :=
  some (v.handle.length - v.offset)

/-- `BorrowView::hint_available_bytes`: same value as `bound_len`. -/
def BorrowView.hint_available_bytes (v : BorrowView) : Option Nat :=
  some (v.handle.length - v.offset)

/-- Characterization of `transcribe` on any in-range state: it succeeds with
the requested subrange exactly when the range fits in the container, and the
wrapped offset arithmetic cannot spuriously succeed. -/
theorem transcribe_eq (h : List Nat) (o : Nat) (bo : Option Nat) (k : Nat)
    (hh : h.length ≤ USIZE_MAX) (ho : o ≤ USIZE_MAX) (hk : k ≤ USIZE_MAX) :
    (BorrowView.mk h o bo).transcribe k =
      if o + k ≤ h.length then .ok ((h.drop o).take k) else .error .EndOfStream := by
  simp only [BorrowView.transcribe, sliceGetRange]
  unfold USIZE_MAX USIZE_CARD at hh ho hk
  by_cases hov : o + k < 2 ^ 64
  · rw [show (o + k) % USIZE_CARD = o + k from Nat.mod_eq_of_lt hov]
    by_cases hle : o + k ≤ h.length
    · rw [if_pos ⟨Nat.le_add_right o k, hle⟩, if_pos hle, Nat.add_sub_cancel_left]
    · rw [if_neg (fun hc => hle hc.2), if_neg hle]
  · have hw : (o + k) % USIZE_CARD = o + k - 2 ^ 64 := by
      unfold USIZE_CARD; omega
    rw [hw, if_neg, if_neg] <;> omega

/-- Characterization of `read_byte`: the byte at `offset` when it exists. -/
theorem read_byte_eq (h : List Nat) (o : Nat) (bo : Option Nat) :
    (BorrowView.mk h o bo).read_byte =
      if hlt : o < h.length then .ok (h.get ⟨o, hlt⟩) else .error .EndOfStream := by
  simp only [BorrowView.read_byte]
  by_cases hlt : o < h.length
  · rw [List.get?_eq_get hlt, dif_pos hlt]
  · rw [List.get?_eq_none.mpr (Nat.le_of_not_lt hlt), dif_neg hlt]

/-- Characterization of `skip` on an unbounded view. -/
theorem skip_eq_none (h : List Nat) (o bytes : Nat) :
    (BorrowView.mk h o none).skip bytes =
      if USIZE_MAX < bytes then .error .EndOfStream
      else .ok (BorrowView.mk h (saturatingAdd o bytes) none) := rfl

/-- Characterization of `skip` on a bounded view. -/
theorem skip_eq_some (h : List Nat) (o cur bytes : Nat) :
    (BorrowView.mk h o (some cur)).skip bytes =
      if USIZE_MAX < bytes then .error .EndOfStream
      else if cur < saturatingAdd o bytes then .error .EndOfStream
      else .ok (BorrowView.mk h (saturatingAdd o bytes) (some cur)) := rfl

/-- Characterization of `bound` on an unbounded view. -/
theorem bound_eq_none (h : List Nat) (o len : Nat) :
    (BorrowView.mk h o none).bound len =
      if USIZE_MAX < len then BorrowView.mk h o none
      else BorrowView.mk h o (some (saturatingAdd o len)) := rfl

/-- Characterization of `bound` on an already-bounded view. -/
theorem bound_eq_some (h : List Nat) (o cur len : Nat) :
    (BorrowView.mk h o (some cur)).bound len =
      if USIZE_MAX < len then BorrowView.mk h o (some cur)
      else BorrowView.mk h o (some (min cur (saturatingAdd o len))) := rfl

/-- C1: `transcribe(k)` on a `BorrowView` positioned at `o` over `B` returns
exactly the bytes `B[o..o+k]` when `o + k ≤ len B`, and otherwise fails with
`EndOfStream` without returning a partial result. -/
theorem transcribe_exact_range_or_end_of_stream (B : List Nat) (o k : Nat)
    (ho : o ≤ B.length) (hB : B.length ≤ USIZE_MAX) (hk : k ≤ USIZE_MAX) :
    (o + k ≤ B.length →
      (BorrowView.new_offset B o).transcribe k = .ok ((B.drop o).take k)) ∧
    (B.length < o + k →
      (BorrowView.new_offset B o).transcribe k = .error .EndOfStream) := by
  simp only [BorrowView.new_offset]
  rw [transcribe_eq B o none k hB (le_trans ho hB) hk]
  constructor
  · intro hle; rw [if_pos hle]
  · intro hgt; rw [if_neg (Nat.not_le_of_lt hgt)]

/-- Witness for C1 at the concrete container `[1, 2, 3]`, offset 1, length 2. -/
theorem transcribe_exact_range_or_end_of_stream_witness :
    (BorrowView.new_offset [1, 2, 3] 1).transcribe 2 = .ok [2, 3] :=
  (transcribe_exact_range_or_end_of_stream [1, 2, 3] 1 2 (by decide) (by decide)
    (by decide)).1 (by decide)

/-- C3: the declared bound is consulted only by `skip`: with a bound set,
`read_byte` and `transcribe` behave exactly as with no bound, and they succeed
precisely when the requested range lies within the actual container length,
even when that range extends beyond the declared bound. -/
theorem bound_not_consulted_by_reads (h : List Nat) (o b k : Nat)
    (hh : h.length ≤ USIZE_MAX) (ho : o ≤ USIZE_MAX) (hk : k ≤ USIZE_MAX) :
    ((BorrowView.mk h o (some b)).read_byte = (BorrowView.mk h o none).read_byte)
    ∧ ((BorrowView.mk h o (some b)).transcribe k
        = (BorrowView.mk h o none).transcribe k)
    ∧ ((∃ x, (BorrowView.mk h o (some b)).read_byte = .ok x) ↔ o < h.length)
    ∧ ((∃ bs, (BorrowView.mk h o (some b)).transcribe k = .ok bs)
        ↔ o + k ≤ h.length) := by
  refine ⟨rfl, rfl, ?_, ?_⟩
  · rw [read_byte_eq]
    constructor
    · rintro ⟨x, hx⟩
      by_contra hlt
      rw [dif_neg hlt] at hx
      exact Except.noConfusion hx
    · intro hlt
      exact ⟨_, by rw [dif_pos hlt]⟩
  · rw [transcribe_eq h o (some b) k hh ho hk]
    constructor
    · rintro ⟨bs, hbs⟩
      by_contra hle
      rw [if_neg hle] at hbs
      exact Except.noConfusion hbs
    · intro hle
      exact ⟨_, by rw [if_pos hle]⟩

/-- Witness for C3: with bound offset 1 already behind the requested range,
reads at offset 1 over `[1, 2, 3]` still behave as if unbounded. -/
theorem bound_not_consulted_by_reads_witness :
    ((BorrowView.mk [1, 2, 3] 1 (some 1)).read_byte
        = (BorrowView.mk [1, 2, 3] 1 none).read_byte)
    ∧ ((BorrowView.mk [1, 2, 3] 1 (some 1)).transcribe 2
        = (BorrowView.mk [1, 2, 3] 1 none).transcribe 2)
    ∧ ((∃ x, (BorrowView.mk [1, 2, 3] 1 (some 1)).read_byte = .ok x)
        ↔ 1 < List.length [1, 2, 3])
    ∧ ((∃ bs, (BorrowView.mk [1, 2, 3] 1 (some 1)).transcribe 2 = .ok bs)
        ↔ 1 + 2 ≤ List.length [1, 2, 3]) :=
  bound_not_consulted_by_reads [1, 2, 3] 1 1 2 (by decide) (by decide) (by decide)

/-- C6: `read_byte` agrees with `transcribe 1` at the same offset: the one-byte
transcription is exactly the read byte wrapped in a singleton buffer, and when
the byte is unavailable both fail with the same error. -/
theorem read_byte_agrees_transcribe_one (v : BorrowView)
    (hh : v.handle.length ≤ USIZE_MAX) (ho : v.offset ≤ USIZE_MAX) :
    v.transcribe 1 = v.read_byte.map (fun b => [b]) := by
  obtain ⟨h, o, bo⟩ := v
  dsimp only at hh ho
  rw [transcribe_eq h o bo 1 hh ho (by unfold USIZE_MAX USIZE_CARD; omega),
    read_byte_eq]
  by_cases hlt : o < h.length
  · rw [dif_pos hlt, if_pos (by omega), List.take_one_drop_eq_of_lt_length hlt]
    rfl
  · rw [dif_neg hlt, if_neg (by omega)]
    rfl

/-- Witness for C6 over `[7, 8]` at offset 1. -/
theorem read_byte_agrees_transcribe_one_witness :
    (BorrowView.new_offset [7, 8] 1).transcribe 1
      = ((BorrowView.new_offset [7, 8] 1).read_byte).map (fun b => [b]) :=
  read_byte_agrees_transcribe_one (BorrowView.new_offset [7, 8] 1)
    (by decide) (by decide)

/-- C2 counterexample: over the container `[1, 2, 3, 4, 5]` (remaining length
5 from offset 0), `skip 6` skips strictly past the true end yet does not fail
with `EndOfStream`: it succeeds, because `BorrowView::skip` never consults the
container length. -/
theorem skip_past_end_succeeds_cex :
    ((BorrowView.new [1, 2, 3, 4, 5]).skip 6
        = .ok (BorrowView.mk [1, 2, 3, 4, 5] 6 none))
    ∧ ((BorrowView.new [1, 2, 3, 4, 5]).skip 6 ≠ .error .EndOfStream) :=
  ⟨rfl, by decide⟩

/-- C2 (amended): for a `BorrowView` at offset `o` over `h` with remaining
length `r = len h - o`, `skip r` succeeds and lands exactly at the end: the
resulting view has remaining length 0 and every subsequent read fails with
`EndOfStream`. But `skip (r + 1)`, skipping strictly past the true end, also
succeeds (`BorrowView::skip` never consults the container length), yielding a
view whose reads likewise all fail. In the concrete scenario over
`[1, 2, 3, 4, 5]`: after `skip 3`, `transcribe 2` returns `[4, 5]`, and a
further `skip 1` succeeds rather than failing with `EndOfStream`. -/
theorem skip_to_end_amended (h : List Nat) (o r : Nat) (ho : o ≤ h.length)
    (hh : h.length < USIZE_MAX) (hr : r = h.length - o) :
    ((BorrowView.new_offset h o).skip r
        = .ok (BorrowView.new_offset h h.length))
    ∧ ((BorrowView.new_offset h h.length).bound_len = some 0)
    ∧ ((BorrowView.new_offset h h.length).read_byte = .error .EndOfStream)
    ∧ (∀ k, 1 ≤ k → k ≤ USIZE_MAX →
        (BorrowView.new_offset h h.length).transcribe k = .error .EndOfStream)
    ∧ ((BorrowView.new_offset h o).skip (r + 1)
        = .ok (BorrowView.new_offset h (h.length + 1)))
    ∧ ((BorrowView.new_offset [1, 2, 3, 4, 5] 3).transcribe 2 = .ok [4, 5])
    ∧ ((BorrowView.new_offset [1, 2, 3, 4, 5] 3).skip 1
        = .ok (BorrowView.new_offset [1, 2, 3, 4, 5] 4)) := by
  have hs1 : saturatingAdd o r = h.length := by
    unfold saturatingAdd USIZE_MAX USIZE_CARD at *
    omega
  have hs2 : saturatingAdd o (r + 1) = h.length + 1 := by
    unfold saturatingAdd USIZE_MAX USIZE_CARD at *
    omega
  refine ⟨?_, ?_, ?_, ?_, ?_, by rfl, by rfl⟩
  · simp only [BorrowView.new_offset]
    rw [skip_eq_none, if_neg (by unfold USIZE_MAX USIZE_CARD at *; omega), hs1]
  · simp [BorrowView.bound_len, BorrowView.new_offset]
  · simp only [BorrowView.new_offset]
    rw [read_byte_eq, dif_neg (lt_irrefl h.length)]
  · intro k hk1 hk2
    simp only [BorrowView.new_offset]
    rw [transcribe_eq h h.length none k (le_of_lt hh) (le_of_lt hh) hk2,
      if_neg (by omega)]
  · simp only [BorrowView.new_offset]
    rw [skip_eq_none, if_neg (by unfold USIZE_MAX USIZE_CARD at *; omega), hs2]

/-- Witness for the amended C2 over `[1, 2, 3, 4, 5]` from offset 0. -/
theorem skip_to_end_amended_witness :
    (BorrowView.new_offset [1, 2, 3, 4, 5] 0).skip 5
      = .ok (BorrowView.new_offset [1, 2, 3, 4, 5] 5) :=
  (skip_to_end_amended [1, 2, 3, 4, 5] 0 5 (by decide) (by decide) (by decide)).1

/-- C4: bound tightening: applying two bounds equals applying the single bound
by their minimum, in either order (so the effective bound never widens), and
the concrete scenario: on a container of length 10 with `bound 4`, `skip 4`
lands exactly on the bound and a further `skip 1` fails with `EndOfStream`
even though the underlying container has more bytes. -/
theorem bound_bound_eq_bound_min (v : BorrowView) (n m : Nat)
    (hn : n ≤ U64_MAX) (hm : m ≤ U64_MAX) :
    ((v.bound n).bound m = v.bound (min n m))
    ∧ ((v.bound n).bound m = (v.bound m).bound n)
    ∧ (((BorrowView.new (List.range 10)).bound 4).skip 4
        = .ok (BorrowView.mk (List.range 10) 4 (some 4)))
    ∧ ((BorrowView.mk (List.range 10) 4 (some 4)).skip 1
        = .error .EndOfStream) := by
  have key : ∀ (w : BorrowView) (a b : Nat), a ≤ U64_MAX → b ≤ U64_MAX →
      (w.bound a).bound b = w.bound (min a b) := by
    intro w a b ha hb
    obtain ⟨h, o, bo⟩ := w
    have hna : ¬ USIZE_MAX < a := by unfold USIZE_MAX U64_MAX USIZE_CARD at *; omega
    have hnb : ¬ USIZE_MAX < b := by unfold USIZE_MAX U64_MAX USIZE_CARD at *; omega
    have hnm : ¬ USIZE_MAX < min a b := by
      unfold USIZE_MAX U64_MAX USIZE_CARD at *
      omega
    cases bo
    case none =>
      rw [bound_eq_none, if_neg hna, bound_eq_some, if_neg hnb,
        bound_eq_none, if_neg hnm]
      have hmin : min (saturatingAdd o a) (saturatingAdd o b)
          = saturatingAdd o (min a b) := by
        unfold saturatingAdd USIZE_MAX USIZE_CARD
        omega
      rw [hmin]
    case some cur =>
      rw [bound_eq_some, if_neg hna, bound_eq_some, if_neg hnb,
        bound_eq_some, if_neg hnm]
      have hmin : min (min cur (saturatingAdd o a)) (saturatingAdd o b)
          = min cur (saturatingAdd o (min a b)) := by
        unfold saturatingAdd USIZE_MAX USIZE_CARD
        omega
      rw [hmin]
  refine ⟨key v n m hn hm, ?_, by rfl, by rfl⟩
  rw [key v n m hn hm, key v m n hm hn, Nat.min_comm]

/-- Witness for C4 with bounds 3 and 7 on a one-byte container. -/
theorem bound_bound_eq_bound_min_witness :
    (((BorrowView.new [0]).bound 3).bound 7
        = (BorrowView.new [0]).bound (min 3 7))
    ∧ (((BorrowView.new [0]).bound 3).bound 7
        = ((BorrowView.new [0]).bound 7).bound 3)
    ∧ (((BorrowView.new (List.range 10)).bound 4).skip 4
        = .ok (BorrowView.mk (List.range 10) 4 (some 4)))
    ∧ ((BorrowView.mk (List.range 10) 4 (some 4)).skip 1
        = .error .EndOfStream) :=
  bound_bound_eq_bound_min (BorrowView.new [0]) 3 7 (by decide) (by decide)

/-- C5: skip composition on a view with no bound: skipping `a` then `b` yields
the same result as skipping `a + b` in one call, hence views that are
indistinguishable in all subsequent reads. -/
theorem skip_skip_eq_skip_add (v : BorrowView) (a b : Nat)
    (hbo : v.bound_offset = none) (hab : a + b ≤ U64_MAX) :
    (v.skip a).bind (fun v2 => v2.skip b) = v.skip (a + b) := by
  obtain ⟨h, o, bo⟩ := v
  dsimp only at hbo
  subst hbo
  have hna : ¬ USIZE_MAX < a := by unfold USIZE_MAX U64_MAX USIZE_CARD at *; omega
  have hnb : ¬ USIZE_MAX < b := by unfold USIZE_MAX U64_MAX USIZE_CARD at *; omega
  have hnab : ¬ USIZE_MAX < a + b := by
    unfold USIZE_MAX U64_MAX USIZE_CARD at *
    omega
  rw [skip_eq_none, if_neg hna]
  show (BorrowView.mk h (saturatingAdd o a) none).skip b = _
  rw [skip_eq_none, if_neg hnb, skip_eq_none h o (a + b), if_neg hnab]
  have hsat : saturatingAdd (saturatingAdd o a) b = saturatingAdd o (a + b) := by
    unfold saturatingAdd USIZE_MAX USIZE_CARD
    omega
  rw [hsat]

/-- Witness for C5 over `[1, 2]` with counts 1 and 2. -/
theorem skip_skip_eq_skip_add_witness :
    ((BorrowView.new [1, 2]).skip 1).bind (fun v2 => v2.skip 2)
      = (BorrowView.new [1, 2]).skip 3 :=
  skip_skip_eq_skip_add (BorrowView.new [1, 2]) 1 2 rfl (by decide)

/-- C7: cursor-state invariants: a successful `skip` never decreases the
offset and carries the bound offset through unchanged; `bound` never moves the
offset, computes the new bound offset as the minimum of the existing one and
the newly requested one, and hence only ever tightens an existing bound. -/
theorem cursor_state_invariants (v : BorrowView) (bytes len : Nat)
    (ho : v.offset ≤ USIZE_MAX) :
    (∀ v2, v.skip bytes = .ok v2 →
      v.offset ≤ v2.offset ∧ v2.bound_offset = v.bound_offset
        ∧ v2.handle = v.handle)
    ∧ ((v.bound len).offset = v.offset)
    ∧ ((v.bound len).handle = v.handle)
    ∧ (∀ cur, v.bound_offset = some cur → len ≤ U64_MAX →
        (v.bound len).bound_offset = some (min cur (saturatingAdd v.offset len)))
    ∧ (∀ cur b2, v.bound_offset = some cur →
        (v.bound len).bound_offset = some b2 → b2 ≤ cur) := by
  obtain ⟨h, o, bo⟩ := v
  dsimp only at ho ⊢
  have hsat : o ≤ saturatingAdd o bytes := by
    unfold saturatingAdd USIZE_MAX USIZE_CARD at *
    omega
  cases bo
  case none =>
    refine ⟨?_, ?_, ?_, ?_, ?_⟩
    · intro v2 hv2
      rw [skip_eq_none] at hv2
      by_cases hgt : USIZE_MAX < bytes
      · rw [if_pos hgt] at hv2
        exact Except.noConfusion hv2
      · rw [if_neg hgt] at hv2
        rw [← Except.ok.inj hv2]
        exact ⟨hsat, rfl, rfl⟩
    · rw [bound_eq_none]
      split <;> rfl
    · rw [bound_eq_none]
      split <;> rfl
    · intro cur hcur
      exact Option.noConfusion hcur
    · intro cur b2 hcur
      exact fun _ => Option.noConfusion hcur
  case some cur0 =>
    refine ⟨?_, ?_, ?_, ?_, ?_⟩
    · intro v2 hv2
      rw [skip_eq_some] at hv2
      by_cases hgt : USIZE_MAX < bytes
      · rw [if_pos hgt] at hv2
        exact Except.noConfusion hv2
      · rw [if_neg hgt] at hv2
        by_cases hbd : cur0 < saturatingAdd o bytes
        · rw [if_pos hbd] at hv2
          exact Except.noConfusion hv2
        · rw [if_neg hbd] at hv2
          rw [← Except.ok.inj hv2]
          exact ⟨hsat, rfl, rfl⟩
    · rw [bound_eq_some]
      split <;> rfl
    · rw [bound_eq_some]
      split <;> rfl
    · intro cur hcur hlen
      cases Option.some.inj hcur
      rw [bound_eq_some,
        if_neg (by unfold USIZE_MAX U64_MAX USIZE_CARD at *; omega)]
    · intro cur b2 hcur hb2
      cases Option.some.inj hcur
      rw [bound_eq_some] at hb2
      by_cases hgt : USIZE_MAX < len
      · rw [if_pos hgt] at hb2
        cases Option.some.inj hb2
        exact Nat.le_refl _
      · rw [if_neg hgt] at hb2
        cases Option.some.inj hb2
        exact Nat.min_le_left _ _

/-- Witness for C7: a concrete bounded view, skipped by one byte. -/
theorem cursor_state_invariants_witness :
    ((BorrowView.mk [1, 2, 3] 0 (some 2)).offset
        ≤ (BorrowView.mk [1, 2, 3] 1 (some 2)).offset)
    ∧ ((BorrowView.mk [1, 2, 3] 1 (some 2)).bound_offset
        = (BorrowView.mk [1, 2, 3] 0 (some 2)).bound_offset)
    ∧ ((BorrowView.mk [1, 2, 3] 1 (some 2)).handle
        = (BorrowView.mk [1, 2, 3] 0 (some 2)).handle) :=
  (cursor_state_invariants (BorrowView.mk [1, 2, 3] 0 (some 2)) 1 1
    (by decide)).1 (BorrowView.mk [1, 2, 3] 1 (some 2)) rfl

/-- C8: every operation is total and returns a normal result on every state
and argument: `transcribe` fails with `EndOfStream` (rather than panicking)
when `offset + len` overflows the pointer-sized integer, `skip` saturates the
offset rather than wrapping and otherwise fails only with `EndOfStream`, and
`bound`, `bound_len`, `hint_available_bytes` and `read_byte` always produce a
value of their result type. -/
theorem operations_total_never_panic (v : BorrowView) (len bytes blen : Nat)
    (ho : v.offset ≤ USIZE_MAX) (hl : len ≤ USIZE_MAX) :
    (USIZE_CARD ≤ v.offset + len → v.transcribe len = .error .EndOfStream)
    ∧ (v.skip bytes = .error .EndOfStream
        ∨ v.skip bytes = .ok { v with offset := saturatingAdd v.offset bytes })
    ∧ ((v.bound blen).offset = v.offset ∧ (v.bound blen).handle = v.handle)
    ∧ (v.bound_len = some (v.handle.length - v.offset))
    ∧ (v.hint_available_bytes = some (v.handle.length - v.offset))
    ∧ (v.read_byte = .error .EndOfStream ∨ ∃ b, v.read_byte = .ok b) := by
  obtain ⟨h, o, bo⟩ := v
  dsimp only at ho hl ⊢
  refine ⟨?_, ?_, ?_, rfl, rfl, ?_⟩
  · intro hov
    simp only [BorrowView.transcribe, sliceGetRange]
    rw [if_neg (by unfold USIZE_MAX USIZE_CARD at *; omega)]
  · cases bo
    case none =>
      rw [skip_eq_none]
      by_cases h1 : USIZE_MAX < bytes
      · rw [if_pos h1]
        exact Or.inl rfl
      · rw [if_neg h1]
        exact Or.inr rfl
    case some cur =>
      rw [skip_eq_some]
      by_cases h1 : USIZE_MAX < bytes
      · rw [if_pos h1]
        exact Or.inl rfl
      · rw [if_neg h1]
        by_cases h2 : cur < saturatingAdd o bytes
        · rw [if_pos h2]
          exact Or.inl rfl
        · rw [if_neg h2]
          exact Or.inr rfl
  · cases bo
    case none =>
      rw [bound_eq_none]
      split <;> exact ⟨rfl, rfl⟩
    case some cur =>
      rw [bound_eq_some]
      split <;> exact ⟨rfl, rfl⟩
  · rw [read_byte_eq]
    by_cases hlt : o < h.length
    · rw [dif_pos hlt]
      exact Or.inr ⟨_, rfl⟩
    · rw [dif_neg hlt]
      exact Or.inl rfl

/-- Witness for C8: `transcribe 1` at offset `usize::MAX` (where
`offset + len` overflows) fails with `EndOfStream`. -/
theorem operations_total_never_panic_witness :
    (BorrowView.mk [] USIZE_MAX none).transcribe 1 = .error .EndOfStream :=
  (operations_total_never_panic (BorrowView.mk [] USIZE_MAX none) 1 0 0
    (Nat.le_refl _) (by decide)).1 (by decide)

/-- C9: the `PartialEq` implementation on `ReadError`: `EndOfStream` equals
`EndOfStream`, and an `Other` failure equals no failure value at all — not
`EndOfStream`, and not another `Other` wrapping the identical cause. -/
theorem read_error_partial_eq_spec :
    (ReadError.eq .EndOfStream .EndOfStream = true)
    ∧ (∀ (e : ReadError) (c : Nat),
        ReadError.eq (.Other c) e = false ∧ ReadError.eq e (.Other c) = false) := by
  refine ⟨rfl, ?_⟩
  intro e c
  cases e <;> exact ⟨rfl, rfl⟩

/-- C10: with no bound set, `skip` succeeds for every count representable in
the pointer-sized integer, regardless of the backing container's length; and
in general `skip` fails — always with `EndOfStream` — exactly when the count
does not fit `usize` or a set bound would be exceeded. -/
theorem skip_unbounded_always_succeeds (v : BorrowView) (bytes : Nat)
    (hbo : v.bound_offset = none) (hrep : bytes ≤ USIZE_MAX) :
    (v.skip bytes = .ok { v with offset := saturatingAdd v.offset bytes })
    ∧ (∀ (w : BorrowView) (n : Nat),
        w.skip n = .error .EndOfStream
          ↔ (USIZE_MAX < n
              ∨ ∃ bnd, w.bound_offset = some bnd
                  ∧ bnd < saturatingAdd w.offset n)) := by
  constructor
  · obtain ⟨h, o, bo⟩ := v
    dsimp only at hbo
    subst hbo
    rw [skip_eq_none, if_neg (by omega)]
  · intro w n
    obtain ⟨h, o, bo⟩ := w
    cases bo
    case none =>
      rw [skip_eq_none]
      by_cases h1 : USIZE_MAX < n
      · rw [if_pos h1]
        exact ⟨fun _ => Or.inl h1, fun _ => rfl⟩
      · rw [if_neg h1]
        constructor
        · intro hc
          exact Except.noConfusion hc
        · rintro (hc | ⟨bnd, hbnd, _⟩)
          · exact absurd hc h1
          · exact Option.noConfusion hbnd
    case some cur =>
      rw [skip_eq_some]
      by_cases h1 : USIZE_MAX < n
      · rw [if_pos h1]
        exact ⟨fun _ => Or.inl h1, fun _ => rfl⟩
      · rw [if_neg h1]
        by_cases h2 : cur < saturatingAdd o n
        · rw [if_pos h2]
          exact ⟨fun _ => Or.inr ⟨cur, rfl, h2⟩, fun _ => rfl⟩
        · rw [if_neg h2]
          constructor
          · intro hc
            exact Except.noConfusion hc
          · rintro (hc | ⟨bnd, hbnd, hlt⟩)
            · exact absurd hc h1
            · cases Option.some.inj hbnd
              exact absurd hlt h2

/-- Witness for C10: skipping a billion bytes over a one-byte container. -/
theorem skip_unbounded_always_succeeds_witness :
    (BorrowView.new [1]).skip 1000000000
      = .ok (BorrowView.mk [1] 1000000000 none) :=
  (skip_unbounded_always_succeeds (BorrowView.new [1]) 1000000000 rfl
    (by decide)).1

